import Mathlib

/-!
Verification of the core logic of the tiny-javascript Wordle repository.

The embedding follows the JavaScript sources:
* `WordleGame` (src/unnamed/part_004): the single-round state machine
  (`addLetter`, `removeLetter`, `submitGuess`, `checkGameStatus`,
  `evaluateGuess`, `getLetterStatus`).
* `GameStateManager` (src/unnamed/part_006): statistics, achievements,
  history, and the JSON persistence of the whole state
  (`finalizeGame`, `checkAchievements`, `getStatistics`,
  `saveState`/`loadState`).

JavaScript strings are modelled as `List Char`, JS `Set`s as insertion-ordered
duplicate-free lists, JS numbers as `Nat`/`Int`/`ℚ` as appropriate, and the
ambient clock (`Date.now()`) as an explicit `now : Nat` parameter.
-/

namespace TinyWordle

/-- The per-letter classification states used throughout the code
(the string constants `'correct'`, `'present'`, `'absent'`, `'unused'`). -/
inductive LetterState
  | correct
  | present
  | absent
  | unused
deriving DecidableEq, Repr

/-- Game status: the string constants `'playing'`, `'won'`, `'lost'`. -/
inductive Status
  | playing
  | won
  | lost
deriving DecidableEq, Repr

/-- Rank of a letter state in the "best known state" order
`correct > present > absent > unused` (spec §3). -/
def LetterState.rank : LetterState → Nat
  | .correct => 3
  | .present => 2
  | .absent => 1
  | .unused => 0

/-- First pass of `evaluateGuess` (part_004 lines 101-108, identically
part_006 lines 414-421): positions where guess and target agree are marked
consumed (`true`), and the corresponding target letter is nulled out
(`none`); all other positions keep their guess letter (paired with `false`)
and their target letter (`some`).  The JS loops index both arrays in
lockstep, which for equal-length inputs is this pairwise recursion. -/
def pass1 : List Char → List Char → List (Char × Bool) × List (Option Char)
  | g :: gs, s :: ss =>
    let r := pass1 gs ss
    if g = s then ((g, true) :: r.1, none :: r.2)
    else ((g, false) :: r.1, (some s) :: r.2)
  | _, _ => ([], [])

/-- `targetLetters.indexOf(c)` followed by `targetLetters[idx] = null`
(part_004 lines 113-116): returns `none` when the letter is not present
(JS `indexOf` returns `-1`), otherwise nulls out the first occurrence. -/
def removeFirst : List (Option Char) → Char → Option (List (Option Char))
  | [], _ => none
  | x :: xs, c =>
    if x = some c then some (none :: xs)
    else
      match removeFirst xs c with
      | some xs2 => some (x :: xs2)
      | none => none

/-- Second pass of `evaluateGuess` (part_004 lines 110-119): consumed
positions keep their `correct` mark from pass 1; for each unconsumed
position, left to right, the letter is `present` if it still occurs in the
remaining target multiset (consuming one occurrence), else `absent`. -/
def pass2 : List (Char × Bool) → List (Option Char) → List LetterState
  | [], _ => []
  | (_, true) :: gs, t => .correct :: pass2 gs t
  | (c, false) :: gs, t =>
    match removeFirst t c with
    | some t2 => .present :: pass2 gs t2
    | none => .absent :: pass2 gs t

/-- `WordleGame.evaluateGuess` (part_004 lines 96-122); the method
`GameStateManager.evaluateGuess` (part_006 lines 409-435) is the identical
algorithm with the target passed explicitly.  Maps a guess and the target
word to the per-position letter states. -/
def evaluateGuess (guess target : List Char) : List LetterState :=
  let p := pass1 guess target
  pass2 p.1 p.2

/-- `'A' ≤ c ≤ 'Z'`: one character of the `^[A-Z]{5}$` regex in
`WordleGame.isValidWord` (part_004 line 141). -/
def isUpperLetter (c : Char) : Bool :=
  'A' ≤ c && c ≤ 'Z'

/-- `WordleGame.isValidWord` (part_004 lines 139-142): the regex
`^[A-Z]{5}$`. -/
def isValidWord (w : List Char) : Bool :=
  w.length == 5 && w.all isUpperLetter

/-- `this.wordLength = 5` (part_004 line 11). -/
def wordLength : Nat := 5

/-- `this.maxGuesses = 6` (part_004 line 10). -/
def maxGuesses : Nat := 6

/-- JS `Set.prototype.add` on an insertion-ordered set modelled as a
duplicate-free list. -/
def setAdd (s : List Char) (c : Char) : List Char :=
  if c ∈ s then s else s ++ [c]

/-- The mutable fields of a `WordleGame` instance (part_004 lines 5-15).
`wordList` only feeds the random initial word selection, so the already
selected `targetWord` stands in for it; `usedLetters` is the JS `Set` of
guessed letters. -/
structure GameState where
  targetWord : List Char
  currentGuess : List Char
  guesses : List (List Char × List LetterState)
  gameStatus : Status
  usedLetters : List Char
deriving DecidableEq, Repr

/-- `WordleGame.initializeGame` (part_004 lines 20-26), with the randomly
selected (already uppercased) target word supplied as a parameter. -/
def initGame (target : List Char) : GameState :=
  { targetWord := target
    currentGuess := []
    guesses := []
    gameStatus := .playing
    usedLetters := [] }

/-- `WordleGame.addLetter` (part_004 lines 42-49): rejected unless the game
is `playing` and the current input is shorter than the word length; the
letter is uppercased before being appended. -/
def addLetter (st : GameState) (c : Char) : Bool × GameState :=
  if st.gameStatus ≠ .playing then (false, st)
  else if st.currentGuess.length < wordLength then
    (true, { st with currentGuess := st.currentGuess ++ [c.toUpper] })
  else (false, st)

/-- `WordleGame.removeLetter` (part_004 lines 54-61): rejected unless the
game is `playing` and the current input is nonempty; `slice(0, -1)` drops
the last letter. -/
def removeLetter (st : GameState) : Bool × GameState :=
  if st.gameStatus ≠ .playing then (false, st)
  else if 0 < st.currentGuess.length then
    (true, { st with currentGuess := st.currentGuess.dropLast })
  else (false, st)

/-- The condition of part_004 line 129: `lastGuess && lastGuess.word ===
this.targetWord`. -/
def lastGuessWins (st : GameState) : Bool :=
  match st.guesses.getLast? with
  | some p => p.1 == st.targetWord
  | none => false

/-- `WordleGame.checkGameStatus` (part_004 lines 127-134): won when the
last guess equals the target, else lost when the guess count has reached
`maxGuesses`, else unchanged. -/
def checkGameStatus (st : GameState) : GameState :=
  if lastGuessWins st then { st with gameStatus := .won }
  else if maxGuesses ≤ st.guesses.length then { st with gameStatus := .lost }
  else st

/-- `WordleGame.submitGuess` (part_004 lines 66-91): rejected unless
`playing`, the input has full length, and passes `isValidWord`; otherwise
the evaluated guess is appended, the used-letter set is extended, the game
status is re-checked, and the current input is cleared. -/
def submitGuess (st : GameState) : Bool × GameState :=
  if st.gameStatus ≠ .playing then (false, st)
  else if st.currentGuess.length ≠ wordLength then (false, st)
  else if ¬ isValidWord st.currentGuess then (false, st)
  else
    let result := evaluateGuess st.currentGuess st.targetWord
    let st1 := { st with
      guesses := st.guesses ++ [(st.currentGuess, result)]
      usedLetters := st.currentGuess.foldl setAdd st.usedLetters }
    let st2 := checkGameStatus st1
    (true, { st2 with currentGuess := [] })

/-- One caller-facing mutation of a `WordleGame` session. -/
inductive Op
  | addL (c : Char)
  | removeL
  | submit
deriving DecidableEq, Repr

/-- Dispatch one operation; the `Bool` is the JS return value. -/
def step (st : GameState) (op : Op) : Bool × GameState :=
  match op with
  | .addL c => addLetter st c
  | .removeL => removeLetter st
  | .submit => submitGuess st

/-- Run a sequence of operations, keeping only the state (the JS methods
mutate `this` and return the `Bool` separately). -/
def run (st : GameState) (ops : List Op) : GameState :=
  ops.foldl (fun s op => (step s op).2) st

/-- The scan of part_004 lines 167-172: find the first guess whose word
contains the letter and return the result entry at the letter's first
index in that word.  `String.indexOf` is `List.findIdx?`; the JS read
`guess.result[letterIndex]` is in bounds whenever the result has the same
length as the word (always true for guesses produced by `submitGuess`), so
the `getD` default is never reached on reachable states. -/
def lookupLetter : List (List Char × List LetterState) → Char → LetterState
  | [], _ => .unused
  | (w, r) :: rest, c =>
    match w.findIdx? (· == c) with
    | some i => r.getD i .absent
    | none => lookupLetter rest c

/-- `WordleGame.getLetterStatus` (part_004 lines 163-175). -/
def getLetterStatus (st : GameState) (c : Char) : LetterState :=
  lookupLetter st.guesses c.toUpper

/-- The letter state a single guess reports for a letter (the "newly
observed state" of one submitted guess, read the same way
`getLetterStatus` reads it: the result entry at the letter's first index
in the word). -/
def observedInGuess (g : List Char × List LetterState) (c : Char) : LetterState :=
  lookupLetter [g] c

/-- Modelled from the spec (§4.3): the maximum of two letter states in the
`correct > present > absent > unused` order.  No such operation exists in
the code; this definition renders the spec's claimed `usedLetters` update
rule so it can be compared against what `getLetterStatus` actually does. -/
def specStateMax (a b : LetterState) : LetterState :=
  if a.rank < b.rank then b else a

/-- The state reached from a fresh session with the given target after a
sequence of operations. -/
def finalState (target : List Char) (ops : List Op) : GameState :=
  run (initGame target) ops

/-! ### GameStateManager (part_006 lines 282-759) -/

/-- `state.statistics` (part_006 lines 287-293). -/
structure Statistics where
  gamesPlayed : Nat
  gamesWon : Nat
  currentStreak : Nat
  maxStreak : Nat
  guessDistribution : List Nat
deriving DecidableEq, Repr

/-- `state.settings` (part_006 lines 294-299). -/
structure Settings where
  hardMode : Bool
  darkTheme : Bool
  colorblindMode : Bool
  animations : Bool
deriving DecidableEq, Repr

/-- One unlocked achievement as pushed by `checkAchievements`
(part_006 lines 502-541). -/
structure Achievement where
  id : String
  name : String
  description : String
  icon : String
  unlockedAt : Nat
deriving DecidableEq, Repr

/-- One guess record as pushed by `GameStateManager.submitGuess`
(part_006 lines 380-384). -/
structure MGuess where
  word : List Char
  result : List LetterState
  timestamp : Nat
deriving DecidableEq, Repr

/-- The game object created by `initializeNewGame` (part_006 lines
310-323) and mutated by the manager.  `endTime` is `null` until the
terminal transition.  The `date` display string derived from the ambient
clock is not modelled. -/
structure MGame where
  id : String
  targetWord : List Char
  currentGuess : List Char
  guesses : List MGuess
  gameStatus : Status
  mgMaxGuesses : Nat
  mgWordLength : Nat
  startTime : Nat
  endTime : Option Nat
  usedLetters : List Char
  wordList : List (List Char)
deriving DecidableEq, Repr

/-- One history record as prepended by `finalizeGame` (part_006 lines
473-481).  `duration` is `game.endTime - game.startTime`, where a `null`
`endTime` coerces to `0` in JS; the clock-derived `date` string is not
modelled. -/
structure HistoryRec where
  id : String
  targetWord : List Char
  gameStatus : Status
  guessCount : Nat
  duration : Int
  completedAt : Option Nat
deriving DecidableEq, Repr

/-- The root `this.state` object of `GameStateManager` (part_006 lines
284-302). -/
structure MgrState where
  currentGame : Option MGame
  gameHistory : List HistoryRec
  statistics : Statistics
  settings : Settings
  achievements : List Achievement
  lastPlayed : Option Nat
deriving DecidableEq, Repr

/-- The fresh state built by the constructor (part_006 lines 284-302)
before `loadState` runs. -/
def initialState : MgrState :=
  { currentGame := none
    gameHistory := []
    statistics :=
      { gamesPlayed := 0, gamesWon := 0, currentStreak := 0, maxStreak := 0
        guessDistribution := [0, 0, 0, 0, 0, 0] }
    settings :=
      { hardMode := false, darkTheme := false, colorblindMode := false
        animations := true }
    achievements := []
    lastPlayed := none }

/-- `stats.guessDistribution[i]++`: increment the slot at index `i`
(out-of-range indices leave the list unchanged, as `List.set` does;
`finalizeGame` only reaches this with `i ≤ 5`). -/
def incAt (l : List Nat) (i : Nat) : List Nat :=
  l.set i (l.getD i 0 + 1)

/-- `GameStateManager.hasAchievement` (part_006 lines 553-555). -/
def hasAchievement (st : MgrState) (aid : String) : Bool :=
  st.achievements.any (fun a => a.id == aid)

/-- The `first_win` achievement record (part_006 lines 502-508). -/
def firstWinAchievement (now : Nat) : Achievement :=
  { id := "first_win", name := "首次获胜"
    description := "完成你的第一个Wordle游戏", icon := "🎉", unlockedAt := now }

/-- The `streak_master` achievement record (part_006 lines 513-519). -/
def streakMasterAchievement (now : Nat) : Achievement :=
  { id := "streak_master", name := "连胜大师"
    description := "连续赢得5场游戏", icon := "🔥", unlockedAt := now }

/-- The `perfect_game` achievement record (part_006 lines 524-530). -/
def perfectGameAchievement (now : Nat) : Achievement :=
  { id := "perfect_game", name := "完美游戏"
    description := "一次就猜中目标单词", icon := "💯", unlockedAt := now }

/-- The `word_master` achievement record (part_006 lines 535-541). -/
def wordMasterAchievement (now : Nat) : Achievement :=
  { id := "word_master", name := "词汇大师"
    description := "完成10场游戏", icon := "📚", unlockedAt := now }

/-- `GameStateManager.checkAchievements` (part_006 lines 496-548): each of
the four predicates is evaluated against the already-updated statistics
and the finished game, guarded by `hasAchievement` on the pre-existing
achievement list; the newly unlocked achievements are appended in order.
`now` models `Date.now()`. -/
def checkAchievements (st : MgrState) (game : MGame) (now : Nat) : MgrState :=
  let stats := st.statistics
  let n1 : List Achievement :=
    if stats.gamesWon == 1 && !(hasAchievement st "first_win") then
      [firstWinAchievement now]
    else []
  let n2 : List Achievement :=
    if 5 ≤ stats.currentStreak && !(hasAchievement st "streak_master") then
      [streakMasterAchievement now]
    else []
  let n3 : List Achievement :=
    if game.gameStatus == .won && game.guesses.length == 1
        && !(hasAchievement st "perfect_game") then
      [perfectGameAchievement now]
    else []
  let n4 : List Achievement :=
    if 10 ≤ stats.gamesPlayed && !(hasAchievement st "word_master") then
      [wordMasterAchievement now]
    else []
  { st with achievements := st.achievements ++ n1 ++ n2 ++ n3 ++ n4 }

/-- The statistics update of `finalizeGame` (part_006 lines 455-470). -/
def finalizeStats (stats : Statistics) (game : MGame) : Statistics :=
  let stats1 := { stats with gamesPlayed := stats.gamesPlayed + 1 }
  if game.gameStatus = .won then
    let s1 := { stats1 with
      gamesWon := stats1.gamesWon + 1
      currentStreak := stats1.currentStreak + 1 }
    let s2 := { s1 with maxStreak := max s1.maxStreak s1.currentStreak }
    let gc := game.guesses.length
    if 1 ≤ gc ∧ gc ≤ 6 then
      { s2 with guessDistribution := incAt s2.guessDistribution (gc - 1) }
    else s2
  else { stats1 with currentStreak := 0 }

/-- `GameStateManager.finalizeGame` (part_006 lines 454-491): update the
statistics, prepend (`unshift`) a compact history record, run
`checkAchievements` against the updated state, and stamp `lastPlayed`.
`now` models `Date.now()`; the `saveState` call is I/O and modelled
separately.  There is no guard against the game id already being present
in the history. -/
def finalizeGame (st : MgrState) (game : MGame) (now : Nat) : MgrState :=
  let stats2 := finalizeStats st.statistics game
  let histRec : HistoryRec :=
    { id := game.id
      targetWord := game.targetWord
      gameStatus := game.gameStatus
      guessCount := game.guesses.length
      duration := (game.endTime.getD 0 : Int) - (game.startTime : Int)
      completedAt := game.endTime }
  let st1 := { st with
    statistics := stats2
    gameHistory := histRec :: st.gameHistory }
  let st2 := checkAchievements st1 game now
  { st2 with lastPlayed := some now }

/-- A sequence of `finalizeGame` calls, each with its own clock reading. -/
def runFinalizes (st : MgrState) (gs : List (MGame × Nat)) : MgrState :=
  gs.foldl (fun s p => finalizeGame s p.1 p.2) st

/-- `Math.round` on the exact rational value: round half toward positive
infinity. -/
def mathRound (x : ℚ) : ℤ :=
  ⌊x + 1 / 2⌋

/-- `Number.prototype.toFixed(1)` on the exact rational value: round to
one decimal digit, ties away from zero for the nonnegative values that
arise here.  (JS computes this through binary doubles; on the small
integer ratios involved the decimal rounding below is the observed
behaviour, e.g. `(5/3).toFixed(1) === "1.7"`.) -/
def toFixed1 (x : ℚ) : ℚ :=
  (mathRound (x * 10) : ℚ) / 10

/-- `GameStateManager.calculateAverageGuesses` (part_006 lines 579-585):
the mean guess count over the won games of the history, rounded through
`toFixed(1)`; `0` when there are no won games. -/
def calculateAverageGuesses (history : List HistoryRec) : ℚ :=
  let wonGames := history.filter (fun g => g.gameStatus == .won)
  if wonGames.length = 0 then 0
  else toFixed1 ((((wonGames.map (fun g => g.guessCount)).sum : Nat) : ℚ) / (wonGames.length : ℚ))

/-- The value returned by `GameStateManager.getStatistics` (part_006
lines 567-574): the stored counters plus the two derived fields. -/
structure StatsView where
  gamesPlayed : Nat
  gamesWon : Nat
  currentStreak : Nat
  maxStreak : Nat
  guessDistribution : List Nat
  winPercentage : ℤ
  averageGuesses : ℚ
deriving DecidableEq, Repr

/-- `GameStateManager.getStatistics` (part_006 lines 567-574). -/
def getStatistics (st : MgrState) : StatsView :=
  let stats := st.statistics
  { gamesPlayed := stats.gamesPlayed
    gamesWon := stats.gamesWon
    currentStreak := stats.currentStreak
    maxStreak := stats.maxStreak
    guessDistribution := stats.guessDistribution
    winPercentage :=
      if 0 < stats.gamesPlayed then
        mathRound ((stats.gamesWon : ℚ) / (stats.gamesPlayed : ℚ) * 100)
      else 0
    averageGuesses := calculateAverageGuesses st.gameHistory }

/-! ### Persistence (part_006 lines 664-707)

`saveState` runs `JSON.stringify` with a replacer that encodes a `Set` as
the tagged object `{ __type__: 'Set', values: [...] }`; `loadState` runs
`JSON.parse` with the inverse reviver and accepts the result when
`isValidState` holds.  We model the JSON text by its parse tree, so
`stringify`/`parse` become tree constructors, which is faithful because
JSON serialization round-trips the tree exactly.  The decoder below reads
back precisely the shapes the encoder emits (the JS loader is laxer — it
duck-types anything passing `isValidState` — but only the encoder's output
matters for the save/load round trip). -/

/-- A JSON parse tree.  All numbers occurring in the persisted state are
integers. -/
inductive Json
  | null
  | bool (b : Bool)
  | num (n : Int)
  | str (s : String)
  | arr (xs : List Json)
  | obj (fields : List (String × Json))

/-- Serialize a game status to its string constant. -/
def encStatus : Status → Json
  | .playing => .str "playing"
  | .won => .str "won"
  | .lost => .str "lost"

/-- Serialize a letter state to its string constant. -/
def encLetterState : LetterState → Json
  | .correct => .str "correct"
  | .present => .str "present"
  | .absent => .str "absent"
  | .unused => .str "unused"

/-- Serialize a word (a JS string). -/
def encWord (w : List Char) : Json :=
  .str ⟨w⟩

/-- Serialize a nullable timestamp. -/
def encOptNat : Option Nat → Json
  | none => .null
  | some n => .num n

/-- Serialize one guess record (`{word, result, timestamp}`). -/
def encGuess (g : MGuess) : Json :=
  .obj [("word", encWord g.word), ("result", .arr (g.result.map encLetterState)),
        ("timestamp", .num g.timestamp)]

/-- The `saveState` replacer (part_006 lines 667-671): a `Set` becomes
`{ __type__: 'Set', values: Array.from(set) }`, the values being
single-character strings in insertion order. -/
def encSet (s : List Char) : Json :=
  .obj [("__type__", .str "Set"),
        ("values", .arr (s.map (fun c => .str (String.singleton c))))]

/-- Serialize the current game object, fields in the property order of
`initializeNewGame` (part_006 lines 311-323). -/
def encMGame (g : MGame) : Json :=
  .obj [("id", .str g.id),
        ("targetWord", encWord g.targetWord),
        ("currentGuess", encWord g.currentGuess),
        ("guesses", .arr (g.guesses.map encGuess)),
        ("gameStatus", encStatus g.gameStatus),
        ("maxGuesses", .num g.mgMaxGuesses),
        ("wordLength", .num g.mgWordLength),
        ("startTime", .num g.startTime),
        ("endTime", encOptNat g.endTime),
        ("usedLetters", encSet g.usedLetters),
        ("wordList", .arr (g.wordList.map encWord))]

/-- Serialize the statistics block (part_006 lines 287-293). -/
def encStatistics (s : Statistics) : Json :=
  .obj [("gamesPlayed", .num s.gamesPlayed),
        ("gamesWon", .num s.gamesWon),
        ("currentStreak", .num s.currentStreak),
        ("maxStreak", .num s.maxStreak),
        ("guessDistribution", .arr (s.guessDistribution.map (fun (n : Nat) => .num (n : Int))))]

/-- Serialize the settings block (part_006 lines 294-299). -/
def encSettings (s : Settings) : Json :=
  .obj [("hardMode", .bool s.hardMode),
        ("darkTheme", .bool s.darkTheme),
        ("colorblindMode", .bool s.colorblindMode),
        ("animations", .bool s.animations)]

/-- Serialize one achievement (part_006 lines 502-508). -/
def encAchievement (a : Achievement) : Json :=
  .obj [("id", .str a.id), ("name", .str a.name),
        ("description", .str a.description), ("icon", .str a.icon),
        ("unlockedAt", .num a.unlockedAt)]

/-- Serialize one history record (part_006 lines 473-481). -/
def encHistoryRec (h : HistoryRec) : Json :=
  .obj [("id", .str h.id),
        ("targetWord", encWord h.targetWord),
        ("gameStatus", encStatus h.gameStatus),
        ("guessCount", .num h.guessCount),
        ("duration", .num h.duration),
        ("completedAt", encOptNat h.completedAt)]

/-- `saveState` (part_006 lines 664-677) as a map to the JSON tree of the
root state object, fields in the property order of the constructor
(part_006 lines 284-302). -/
def encMgrState (st : MgrState) : Json :=
  .obj [("currentGame",
          match st.currentGame with
          | none => .null
          | some g => encMGame g),
        ("gameHistory", .arr (st.gameHistory.map encHistoryRec)),
        ("statistics", encStatistics st.statistics),
        ("settings", encSettings st.settings),
        ("achievements", .arr (st.achievements.map encAchievement)),
        ("lastPlayed", encOptNat st.lastPlayed)]

/-- Decode a game status string. -/
def decStatus : Json → Option Status
  | .str "playing" => some .playing
  | .str "won" => some .won
  | .str "lost" => some .lost
  | _ => none

/-- Decode a letter state string. -/
def decLetterState : Json → Option LetterState
  | .str "correct" => some .correct
  | .str "present" => some .present
  | .str "absent" => some .absent
  | .str "unused" => some .unused
  | _ => none

/-- Decode a word. -/
def decWord : Json → Option (List Char)
  | .str s => some s.data
  | _ => none

/-- Decode a single-character string (one element of a revived `Set`). -/
def decChar : Json → Option Char
  | .str s =>
    match s.data with
    | [c] => some c
    | _ => none
  | _ => none

/-- Decode a natural number. -/
def decNat : Json → Option Nat
  | .num n => some n.toNat
  | _ => none

/-- Decode an integer. -/
def decInt : Json → Option Int
  | .num n => some n
  | _ => none

/-- Decode a boolean. -/
def decBool : Json → Option Bool
  | .bool b => some b
  | _ => none

/-- Decode a nullable timestamp. -/
def decOptNat : Json → Option (Option Nat)
  | .null => some none
  | .num n => some (some n.toNat)
  | _ => none

/-- Decode every element of a JSON array. -/
def decList {α : Type} (d : Json → Option α) : List Json → Option (List α)
  | [] => some []
  | x :: xs =>
    match d x, decList d xs with
    | some a, some as => some (a :: as)
    | _, _ => none

/-- Decode one guess record. -/
def decGuess : Json → Option MGuess
  | .obj [("word", jw), ("result", .arr rs), ("timestamp", .num ts)] => do
    let w ← decWord jw
    let r ← decList decLetterState rs
    some { word := w, result := r, timestamp := ts.toNat }
  | _ => none

/-- The `loadState` reviver (part_006 lines 686-692): an object tagged
`__type__: 'Set'` is turned back into a `Set` of its `values`. -/
def decSet : Json → Option (List Char)
  | .obj [("__type__", .str "Set"), ("values", .arr vs)] => decList decChar vs
  | _ => none

/-- Decode the current game object. -/
def decMGame : Json → Option MGame
  | .obj [("id", .str i), ("targetWord", jtw), ("currentGuess", jcg),
          ("guesses", .arr jgs), ("gameStatus", jst), ("maxGuesses", .num mg),
          ("wordLength", .num wl), ("startTime", .num stt), ("endTime", jet),
          ("usedLetters", jul), ("wordList", .arr jwl)] => do
    let tw ← decWord jtw
    let cg ← decWord jcg
    let gs ← decList decGuess jgs
    let s ← decStatus jst
    let et ← decOptNat jet
    let ul ← decSet jul
    let wlst ← decList decWord jwl
    some { id := i, targetWord := tw, currentGuess := cg, guesses := gs
           gameStatus := s, mgMaxGuesses := mg.toNat, mgWordLength := wl.toNat
           startTime := stt.toNat, endTime := et, usedLetters := ul
           wordList := wlst }
  | _ => none

/-- Decode the statistics block. -/
def decStatistics : Json → Option Statistics
  | .obj [("gamesPlayed", .num gp), ("gamesWon", .num gw),
          ("currentStreak", .num cs), ("maxStreak", .num ms),
          ("guessDistribution", .arr gd)] => do
    let d ← decList decNat gd
    some { gamesPlayed := gp.toNat, gamesWon := gw.toNat
           currentStreak := cs.toNat, maxStreak := ms.toNat
           guessDistribution := d }
  | _ => none

/-- Decode the settings block. -/
def decSettings : Json → Option Settings
  | .obj [("hardMode", .bool h), ("darkTheme", .bool d),
          ("colorblindMode", .bool c), ("animations", .bool a)] =>
    some { hardMode := h, darkTheme := d, colorblindMode := c, animations := a }
  | _ => none

/-- Decode one achievement. -/
def decAchievement : Json → Option Achievement
  | .obj [("id", .str i), ("name", .str n), ("description", .str d),
          ("icon", .str ic), ("unlockedAt", .num u)] =>
    some { id := i, name := n, description := d, icon := ic
           unlockedAt := u.toNat }
  | _ => none

/-- Decode one history record. -/
def decHistoryRec : Json → Option HistoryRec
  | .obj [("id", .str i), ("targetWord", jtw), ("gameStatus", jst),
          ("guessCount", .num gc), ("duration", .num du),
          ("completedAt", jca)] => do
    let tw ← decWord jtw
    let s ← decStatus jst
    let ca ← decOptNat jca
    some { id := i, targetWord := tw, gameStatus := s, guessCount := gc.toNat
           duration := du, completedAt := ca }
  | _ => none

/-- `loadState` (part_006 lines 682-707) on a saved tree: revive the
tagged `Set`s, check the `isValidState` shape and read the fields back.
Returns `none` for trees the decoder does not recognise (the JS loader
then keeps the fresh default state). -/
def decMgrState : Json → Option MgrState
  | .obj [("currentGame", jcg), ("gameHistory", .arr jgh),
          ("statistics", jst), ("settings", jse),
          ("achievements", .arr jac), ("lastPlayed", jlp)] => do
    let cg ←
      match jcg with
      | .null => some none
      | j => (decMGame j).map some
    let gh ← decList decHistoryRec jgh
    let stats ← decStatistics jst
    let se ← decSettings jse
    let ac ← decList decAchievement jac
    let lp ← decOptNat jlp
    some { currentGame := cg, gameHistory := gh, statistics := stats
           settings := se, achievements := ac, lastPlayed := lp }
  | _ => none

/-- Reachability invariant of a `WordleGame` session with the given
target: while `playing` fewer than 6 guesses have been accepted and none
equals the target; `lost` states hold exactly 6 guesses, none equal to the
target; `won` states hold a guess equal to the target. -/
def SessionInv (target : List Char) (st : GameState) : Prop :=
  st.targetWord = target ∧
  ((st.gameStatus = .playing ∧ st.guesses.length < 6 ∧ ∀ p ∈ st.guesses, p.1 ≠ target)
    ∨ (st.gameStatus = .lost ∧ st.guesses.length = 6 ∧ ∀ p ∈ st.guesses, p.1 ≠ target)
    ∨ (st.gameStatus = .won ∧ ∃ p ∈ st.guesses, p.1 = target))

/-- Whether some submitted guess contains the letter (the scan domain of
`getLetterStatus`). -/
def foundIn (gs : List (List Char × List LetterState)) (c : Char) : Bool :=
  gs.any (fun g => (g.1.findIdx? (fun x => x == c)).isSome)

/-- A concrete terminal (won, one guess) session used as a test input for
the finalization theorems. -/
def gameWonOnce : MGame :=
  { id := "game_1"
    targetWord := ['H', 'E', 'L', 'L', 'O']
    currentGuess := []
    guesses := [{ word := ['H', 'E', 'L', 'L', 'O']
                  result := [.correct, .correct, .correct, .correct, .correct]
                  timestamp := 10 }]
    gameStatus := .won
    mgMaxGuesses := 6
    mgWordLength := 5
    startTime := 0
    endTime := some 10
    usedLetters := ['H', 'E', 'L', 'O']
    wordList := [] }

/-- A concrete history of three won games with guess counts 1, 1 and 3
(mean 5/3), used as a test input for `getStatistics`. -/
def historyThreeWins : List HistoryRec :=
  [{ id := "h1", targetWord := ['A', 'B', 'C', 'D', 'E'], gameStatus := .won
     guessCount := 1, duration := 5, completedAt := some 5 },
   { id := "h2", targetWord := ['A', 'B', 'C', 'D', 'E'], gameStatus := .won
     guessCount := 1, duration := 5, completedAt := some 5 },
   { id := "h3", targetWord := ['A', 'B', 'C', 'D', 'E'], gameStatus := .won
     guessCount := 3, duration := 5, completedAt := some 5 }]

/-- The statistics invariant maintained by finalization (C10): the streak
never exceeds its recorded maximum, wins never exceed games played, the
histogram sums to the number of wins, and the histogram keeps its six
slots. -/
def StatsInvariant (s : Statistics) : Prop :=
  s.currentStreak ≤ s.maxStreak
    ∧ s.gamesWon ≤ s.gamesPlayed
    ∧ s.guessDistribution.sum = s.gamesWon
    ∧ s.guessDistribution.length = 6

/-! ## Theorems -/

/-- C1 counterexample: for secret `"BOOKS"` and guess `"BOOST"`,
`evaluateGuess` does not return the classification
`["correct","absent","present","correct","correct"]` claimed by the spec
(the repo's own unit test asserts the same impossible value; it disagrees
with the two-pass algorithm the spec itself prescribes). -/
theorem evaluateGuess_books_boost_not_spec_value :
    evaluateGuess ['B', 'O', 'O', 'S', 'T'] ['B', 'O', 'O', 'K', 'S'] ≠
      [LetterState.correct, LetterState.absent, LetterState.present,
       LetterState.correct, LetterState.correct] := by
  decide

/-- C1 amended: for secret `"BOOKS"` and guess `"BOOST"`, `evaluateGuess`
returns `["correct","correct","correct","present","absent"]`: the first
three letters match exactly, the `S` is displaced, and the `T` is absent. -/
theorem evaluateGuess_books_boost :
    evaluateGuess ['B', 'O', 'O', 'S', 'T'] ['B', 'O', 'O', 'K', 'S'] =
      [LetterState.correct, LetterState.correct, LetterState.correct,
       LetterState.present, LetterState.absent] := by
  decide

/-- Pass 2 emits `correct` exactly at the positions pass 1 consumed. -/
theorem count_correct_pass2 (gs : List (Char × Bool)) (t : List (Option Char)) :
    (pass2 gs t).count LetterState.correct = gs.countP (fun p => p.2) := by
  induction gs generalizing t with
  | nil => simp [pass2]
  | cons hd tl ih =>
    obtain ⟨c, b⟩ := hd
    cases b with
    | true => simp [pass2, List.count_cons, List.countP_cons, ih]
    | false =>
      cases hrf : removeFirst t c with
      | some t2 => simp [pass2, hrf, List.count_cons, List.countP_cons, ih]
      | none => simp [pass2, hrf, List.count_cons, List.countP_cons, ih]

/-- Pass 1 consumes exactly the positions where guess and target agree. -/
theorem pass1_countP_consumed (g s : List Char) (h : g.length = s.length) :
    (pass1 g s).1.countP (fun p => p.2) = (g.zip s).countP (fun p => p.1 == p.2) := by
  induction g generalizing s with
  | nil =>
    cases s with
    | nil => simp [pass1]
    | cons _ _ => simp at h
  | cons c gs ih =>
    cases s with
    | nil => simp at h
    | cons d ss =>
      simp only [List.length_cons, Nat.succ.injEq] at h
      by_cases hcd : c = d
      · subst hcd
        simp [pass1, List.zip_cons_cons, List.countP_cons, ih _ h]
      · simp [pass1, hcd, List.zip_cons_cons, List.countP_cons, ih _ h]

/-- Nulling out the first occurrence of a letter removes exactly one
occurrence of that letter and nothing else. -/
theorem removeFirst_count (c L : Char) (t : List (Option Char)) :
    ∀ t', removeFirst t c = some t' →
      t.count (some L) = t'.count (some L) + (if L = c then 1 else 0) := by
  induction t with
  | nil => intro t' h; simp [removeFirst] at h
  | cons x xs ih =>
    intro t' h
    by_cases hx : x = some c
    · rw [removeFirst, if_pos hx] at h
      obtain rfl : (none : Option Char) :: xs = t' := by injection h
      subst hx
      by_cases hlc : L = c
      · subst hlc; simp [List.count_cons]
      · have hcl : ¬ c = L := fun hh => hlc hh.symm
        simp [List.count_cons, hlc, hcl]
    · rw [removeFirst, if_neg hx] at h
      cases hrec : removeFirst xs c with
      | none => rw [hrec] at h; simp at h
      | some xs2 =>
        rw [hrec] at h
        obtain rfl : x :: xs2 = t' := by injection h
        have hxs := ih xs2 hrec
        simp only [List.count_cons, hxs]
        omega

/-- Pass 2 marks a letter `correct` or `present` at most as often as pass 1
consumed it plus its remaining multiplicity in the target. -/
theorem pass2_hits_le (L : Char) (gs : List (Char × Bool)) (t : List (Option Char)) :
    ((gs.zip (pass2 gs t)).countP
        (fun p => p.1.1 == L && (p.2 == LetterState.correct || p.2 == LetterState.present)))
      ≤ gs.countP (fun p => p.1 == L && p.2) + t.count (some L) := by
  induction gs generalizing t with
  | nil => simp [pass2]
  | cons hd tl ih =>
    obtain ⟨c, b⟩ := hd
    cases b with
    | true =>
      have h := ih t
      by_cases hcL : c = L <;>
        simp only [pass2, List.zip_cons_cons, List.countP_cons, hcL] <;> simp <;> omega
    | false =>
      cases hrf : removeFirst t c with
      | some t2 =>
        have h := ih t2
        have hc := removeFirst_count c L t t2 hrf
        by_cases hcL : c = L
        · subst hcL
          simp only [pass2, hrf, List.zip_cons_cons, List.countP_cons] at *
          simp at *
          omega
        · have hLc : ¬ L = c := fun hlc => absurd hlc.symm hcL
          simp only [pass2, hrf, List.zip_cons_cons, List.countP_cons] at *
          simp [hcL, hLc] at *
          omega
      | none =>
        have h := ih t
        simp only [pass2, hrf, List.zip_cons_cons, List.countP_cons]
        simp
        omega

/-- Pass 1 splits the target's occurrences of each letter between the
consumed positions and the remaining multiset. -/
theorem pass1_letter_conserve (L : Char) (g : List Char) :
    ∀ s : List Char, g.length = s.length →
      (pass1 g s).1.countP (fun p => p.1 == L && p.2) + (pass1 g s).2.count (some L)
        = s.count L := by
  induction g with
  | nil =>
    intro s h
    cases s with
    | nil => simp [pass1]
    | cons _ _ => simp at h
  | cons c gs ih =>
    intro s h
    cases s with
    | nil => simp at h
    | cons d ss =>
      simp only [List.length_cons, Nat.succ.injEq] at h
      have hrec := ih ss h
      by_cases hcd : c = d
      · subst hcd
        simp only [pass1, if_pos rfl]
        by_cases hLc : L = c
        · subst hLc
          simp [List.countP_cons, List.count_cons]
          omega
        · have hcL : ¬ c = L := fun hh => hLc hh.symm
          simp [List.countP_cons, List.count_cons, hLc, hcL]
          omega
      · simp only [pass1, if_neg hcd]
        by_cases hLd : L = d
        · subst hLd
          simp [List.countP_cons, List.count_cons]
          omega
        · have hdL : ¬ d = L := fun hh => hLd hh.symm
          simp [List.countP_cons, List.count_cons, hLd, hdL]
          omega

/-- The guess letters of pass 1's output are the original guess. -/
theorem pass1_map_fst (g : List Char) :
    ∀ s : List Char, g.length = s.length → (pass1 g s).1.map Prod.fst = g := by
  induction g with
  | nil =>
    intro s h
    cases s with
    | nil => simp [pass1]
    | cons _ _ => simp at h
  | cons c gs ih =>
    intro s h
    cases s with
    | nil => simp at h
    | cons d ss =>
      simp only [List.length_cons, Nat.succ.injEq] at h
      by_cases hcd : c = d <;> simp [pass1, hcd, ih ss h]

/-- C2: for every secret `s` and guess `g` of 5 uppercase letters, the
result of `evaluateGuess g s` has exactly as many `correct` entries as
there are positions where `g` and `s` agree, and for every letter `L` the
number of positions of `g` classified `correct` or `present` whose letter
is `L` never exceeds the number of occurrences of `L` in `s`. -/
theorem evaluateGuess_sound (g s : List Char)
    (hg : g.length = 5) (hs : s.length = 5)
    (hgu : ∀ c ∈ g, isUpperLetter c = true) (hsu : ∀ c ∈ s, isUpperLetter c = true) :
    (evaluateGuess g s).count LetterState.correct
        = (g.zip s).countP (fun p => p.1 == p.2)
      ∧ ∀ L : Char,
        (g.zip (evaluateGuess g s)).countP
            (fun p => p.1 == L && (p.2 == LetterState.correct || p.2 == LetterState.present))
          ≤ s.count L := by
  have hlen : g.length = s.length := by rw [hg, hs]
  constructor
  · show (pass2 (pass1 g s).1 (pass1 g s).2).count LetterState.correct = _
    rw [count_correct_pass2]
    exact pass1_countP_consumed g s hlen
  · intro L
    have hm : (pass1 g s).1.map Prod.fst = g := pass1_map_fst g s hlen
    have hz :
        (g.zip (evaluateGuess g s)).countP
            (fun p => p.1 == L && (p.2 == LetterState.correct || p.2 == LetterState.present))
          = (((pass1 g s).1.zip (pass2 (pass1 g s).1 (pass1 g s).2)).countP
              (fun p => p.1.1 == L && (p.2 == LetterState.correct || p.2 == LetterState.present))) := by
      show (g.zip (pass2 (pass1 g s).1 (pass1 g s).2)).countP _ = _
      generalize pass2 (pass1 g s).1 (pass1 g s).2 = r
      conv_lhs => rw [← hm]
      rw [List.zip_map_left, List.countP_map]
      rfl
    rw [hz]
    calc ((pass1 g s).1.zip (pass2 (pass1 g s).1 (pass1 g s).2)).countP
            (fun p => p.1.1 == L && (p.2 == LetterState.correct || p.2 == LetterState.present))
        ≤ (pass1 g s).1.countP (fun p => p.1 == L && p.2)
            + (pass1 g s).2.count (some L) := pass2_hits_le L _ _
      _ = s.count L := pass1_letter_conserve L g s hlen

/-- Witness for `evaluateGuess_sound` at secret `"BOOKS"`, guess
`"BOOST"`. -/
theorem evaluateGuess_sound_witness :
    (['B', 'O', 'O', 'S', 'T'] : List Char).length = 5
      ∧ (['B', 'O', 'O', 'K', 'S'] : List Char).length = 5
      ∧ (∀ c ∈ (['B', 'O', 'O', 'S', 'T'] : List Char), isUpperLetter c = true)
      ∧ (∀ c ∈ (['B', 'O', 'O', 'K', 'S'] : List Char), isUpperLetter c = true)
      ∧ ((evaluateGuess ['B', 'O', 'O', 'S', 'T'] ['B', 'O', 'O', 'K', 'S']).count
            LetterState.correct
          = ((['B', 'O', 'O', 'S', 'T'] : List Char).zip ['B', 'O', 'O', 'K', 'S']).countP
              (fun p => p.1 == p.2)
        ∧ ∀ L : Char,
          ((['B', 'O', 'O', 'S', 'T'] : List Char).zip
              (evaluateGuess ['B', 'O', 'O', 'S', 'T'] ['B', 'O', 'O', 'K', 'S'])).countP
              (fun p => p.1 == L && (p.2 == LetterState.correct || p.2 == LetterState.present))
            ≤ (['B', 'O', 'O', 'K', 'S'] : List Char).count L) :=
  ⟨by decide, by decide, by decide, by decide,
    evaluateGuess_sound _ _ (by decide) (by decide) (by decide) (by decide)⟩

/-- In a terminal state every operation is rejected (returns `false`) and
leaves the state unchanged. -/
theorem step_terminal (st : GameState) (op : Op) (h : st.gameStatus ≠ .playing) :
    step st op = (false, st) := by
  cases op with
  | addL c => simp [step, addLetter, h]
  | removeL => simp [step, removeLetter, h]
  | submit => simp [step, submitGuess, h]

/-- A fresh session satisfies the session invariant. -/
theorem sessionInv_init (target : List Char) : SessionInv target (initGame target) := by
  refine ⟨rfl, Or.inl ⟨rfl, ?_, ?_⟩⟩ <;> simp [initGame]

/-- `submitGuess` on a state passing all three guards. -/
theorem submitGuess_success (st : GameState)
    (h1 : st.gameStatus = .playing) (h2 : st.currentGuess.length = wordLength)
    (h3 : isValidWord st.currentGuess = true) :
    submitGuess st =
      (true,
        { checkGameStatus
            { st with
                guesses := st.guesses
                  ++ [(st.currentGuess, evaluateGuess st.currentGuess st.targetWord)]
                usedLetters := st.currentGuess.foldl setAdd st.usedLetters }
          with currentGuess := [] }) := by
  unfold submitGuess
  rw [if_neg (by simp [h1]), if_neg (by simp [h2]), if_neg (by simp [h3])]

/-- `submitGuess` on a state failing one of the three guards. -/
theorem submitGuess_fail (st : GameState)
    (h : st.gameStatus ≠ .playing ∨ st.currentGuess.length ≠ wordLength
          ∨ isValidWord st.currentGuess = false) :
    submitGuess st = (false, st) := by
  unfold submitGuess
  by_cases h1 : st.gameStatus ≠ .playing
  · rw [if_pos h1]
  · rw [if_neg h1]
    by_cases h2 : st.currentGuess.length ≠ wordLength
    · rw [if_pos h2]
    · rw [if_neg h2]
      rcases h with h | h | h
      · exact absurd h h1
      · exact absurd h h2
      · rw [if_pos (by simp [h])]

/-- One step preserves the session invariant. -/
theorem sessionInv_step (target : List Char) (st : GameState) (op : Op)
    (h : SessionInv target st) : SessionInv target (step st op).2 := by
  cases op with
  | addL c =>
    show SessionInv target (addLetter st c).2
    unfold addLetter
    split
    · exact h
    · split
      · exact h
      · exact h
  | removeL =>
    show SessionInv target (removeLetter st).2
    unfold removeLetter
    split
    · exact h
    · split
      · exact h
      · exact h
  | submit =>
    show SessionInv target (submitGuess st).2
    by_cases h1 : st.gameStatus = .playing
    · by_cases h2 : st.currentGuess.length = wordLength
      · by_cases h3 : isValidWord st.currentGuess = true
        · rw [submitGuess_success st h1 h2 h3]
          obtain ⟨htw, hcase⟩ := h
          have hply : st.guesses.length < 6 ∧ ∀ p ∈ st.guesses, p.1 ≠ target := by
            rcases hcase with ⟨_, ha, hb⟩ | ⟨hl, _, _⟩ | ⟨hw, _⟩
            · exact ⟨ha, hb⟩
            · rw [h1] at hl; cases hl
            · rw [h1] at hw; cases hw
          obtain ⟨hlt, hne⟩ := hply
          have hlast : lastGuessWins
              { st with
                  guesses := st.guesses
                    ++ [(st.currentGuess, evaluateGuess st.currentGuess st.targetWord)]
                  usedLetters := st.currentGuess.foldl setAdd st.usedLetters } =
              (st.currentGuess == target) := by
            unfold lastGuessWins
            simp [htw]
          unfold checkGameStatus
          rw [hlast]
          by_cases hwin : st.currentGuess = target
          · rw [if_pos (by simp [hwin])]
            refine ⟨htw, Or.inr (Or.inr ⟨rfl,
              (st.currentGuess, evaluateGuess st.currentGuess st.targetWord), ?_, hwin⟩)⟩
            simp
          · rw [if_neg (by simp [hwin])]
            have hall : ∀ p ∈ st.guesses
                ++ [(st.currentGuess, evaluateGuess st.currentGuess st.targetWord)],
                p.1 ≠ target := by
              intro p hp
              rcases List.mem_append.mp hp with hmem | hmem
              · exact hne p hmem
              · rw [List.mem_singleton] at hmem
                rw [hmem]
                exact hwin
            by_cases h6 : st.guesses.length + 1 = 6
            · rw [if_pos (by simp [maxGuesses]; omega)]
              refine ⟨htw, Or.inr (Or.inl ⟨rfl, ?_, hall⟩)⟩
              simpa using h6
            · rw [if_neg (by simp [maxGuesses]; omega)]
              refine ⟨htw, Or.inl ⟨h1, ?_, hall⟩⟩
              simp only [List.length_append, List.length_singleton]
              omega
        · rw [submitGuess_fail st (Or.inr (Or.inr (by simpa using h3)))]
          exact h
      · rw [submitGuess_fail st (Or.inr (Or.inl h2))]
        exact h
    · rw [submitGuess_fail st (Or.inl h1)]
      exact h

/-- Running any operation sequence preserves the session invariant. -/
theorem sessionInv_run (target : List Char) (ops : List Op) (st : GameState)
    (h : SessionInv target st) : SessionInv target (run st ops) := by
  induction ops generalizing st with
  | nil => exact h
  | cons op rest ih => exact ih _ (sessionInv_step target st op h)

/-- C3: a fresh session, driven by any sequence of `addLetter` /
`removeLetter` / `submitGuess` calls, is `lost` iff exactly 6 guesses were
accepted and none equals the secret, is `won` iff some accepted guess
equals the secret, and once terminal every further call returns `false`
and leaves the session unchanged. -/
theorem session_lifecycle (target : List Char) (ops : List Op) :
    ((finalState target ops).gameStatus = .lost ↔
        (finalState target ops).guesses.length = 6
          ∧ ∀ p ∈ (finalState target ops).guesses, p.1 ≠ target)
      ∧ ((finalState target ops).gameStatus = .won ↔
        ∃ p ∈ (finalState target ops).guesses, p.1 = target)
      ∧ ((finalState target ops).gameStatus ≠ .playing →
        ∀ op, step (finalState target ops) op = (false, finalState target ops)) := by
  have hInv : SessionInv target (finalState target ops) :=
    sessionInv_run target ops _ (sessionInv_init target)
  obtain ⟨htw, hcase⟩ := hInv
  refine ⟨⟨?_, ?_⟩, ⟨?_, ?_⟩, ?_⟩
  · intro hl
    rcases hcase with ⟨hp, _, _⟩ | ⟨_, h6, hne⟩ | ⟨hw, _⟩
    · rw [hp] at hl; cases hl
    · exact ⟨h6, hne⟩
    · rw [hw] at hl; cases hl
  · rintro ⟨h6, hne⟩
    rcases hcase with ⟨hp, hlt, _⟩ | ⟨hl, _, _⟩ | ⟨hw, hex⟩
    · omega
    · exact hl
    · obtain ⟨p, hp, hpt⟩ := hex
      exact absurd hpt (hne p hp)
  · intro hw
    rcases hcase with ⟨hp, _, _⟩ | ⟨hl, _, _⟩ | ⟨_, hex⟩
    · rw [hp] at hw; cases hw
    · rw [hl] at hw; cases hw
    · exact hex
  · rintro ⟨p, hp, hpt⟩
    rcases hcase with ⟨_, _, hne⟩ | ⟨_, _, hne⟩ | ⟨hw, _⟩
    · exact absurd hpt (hne p hp)
    · exact absurd hpt (hne p hp)
    · exact hw
  · intro hterm op
    exact step_terminal _ op hterm

/-- Unfolding of the letter scan when the first guess word contains the
letter. -/
theorem lookupLetter_cons_found (w : List Char) (r : List LetterState)
    (rest : List (List Char × List LetterState)) (c : Char) (i : Nat)
    (h : w.findIdx? (fun x => x == c) = some i) :
    lookupLetter ((w, r) :: rest) c = r.getD i .absent := by
  simp only [lookupLetter, h]

/-- Unfolding of the letter scan when the first guess word does not
contain the letter. -/
theorem lookupLetter_cons_notfound (w : List Char) (r : List LetterState)
    (rest : List (List Char × List LetterState)) (c : Char)
    (h : w.findIdx? (fun x => x == c) = none) :
    lookupLetter ((w, r) :: rest) c = lookupLetter rest c := by
  simp only [lookupLetter, h]

/-- The letter scan over concatenated guess lists: the first block wins
whenever it contains the letter. -/
theorem lookupLetter_append (gs hs : List (List Char × List LetterState)) (c : Char) :
    lookupLetter (gs ++ hs) c =
      if foundIn gs c then lookupLetter gs c else lookupLetter hs c := by
  induction gs with
  | nil => simp [foundIn, lookupLetter]
  | cons g rest ih =>
    obtain ⟨w, r⟩ := g
    rw [List.cons_append]
    cases hidx : w.findIdx? (fun x => x == c) with
    | some i =>
      have hf : foundIn ((w, r) :: rest) c = true := by
        simp [foundIn, hidx]
      rw [if_pos hf, lookupLetter_cons_found w r (rest ++ hs) c i hidx,
        lookupLetter_cons_found w r rest c i hidx]
    | none =>
      have hf : foundIn ((w, r) :: rest) c = foundIn rest c := by
        simp [foundIn, hidx]
      rw [hf, lookupLetter_cons_notfound w r (rest ++ hs) c hidx,
        lookupLetter_cons_notfound w r rest c hidx, ih]

/-- A letter contained in no guess scans to `unused`. -/
theorem lookupLetter_not_found (gs : List (List Char × List LetterState)) (c : Char)
    (h : foundIn gs c = false) : lookupLetter gs c = .unused := by
  induction gs with
  | nil => rfl
  | cons g rest ih =>
    obtain ⟨w, r⟩ := g
    cases hidx : w.findIdx? (fun x => x == c) with
    | some i =>
      exfalso
      simp [foundIn, hidx] at h
    | none =>
      rw [lookupLetter_cons_notfound w r rest c hidx]
      apply ih
      simpa [foundIn, hidx] using h

/-- `checkGameStatus` never changes the guess list. -/
theorem checkGameStatus_guesses (st : GameState) :
    (checkGameStatus st).guesses = st.guesses := by
  unfold checkGameStatus
  split
  · rfl
  · split
    · rfl
    · rfl

/-- One step never lowers the rank of the reported letter state: the
non-submitting operations leave the guess list unchanged, and a
successful submission appends a guess, which is only consulted when the
letter was in no earlier guess (reported `unused`, the bottom rank). -/
theorem getLetterStatus_step_mono (st : GameState) (op : Op) (c : Char) :
    (getLetterStatus st c).rank ≤ (getLetterStatus (step st op).2 c).rank := by
  cases op with
  | addL c2 =>
    show (getLetterStatus st c).rank ≤ (getLetterStatus (addLetter st c2).2 c).rank
    unfold addLetter
    split
    · exact Nat.le_refl _
    · split
      · exact Nat.le_refl _
      · exact Nat.le_refl _
  | removeL =>
    show (getLetterStatus st c).rank ≤ (getLetterStatus (removeLetter st).2 c).rank
    unfold removeLetter
    split
    · exact Nat.le_refl _
    · split
      · exact Nat.le_refl _
      · exact Nat.le_refl _
  | submit =>
    show (getLetterStatus st c).rank ≤ (getLetterStatus (submitGuess st).2 c).rank
    by_cases h1 : st.gameStatus = .playing
    · by_cases h2 : st.currentGuess.length = wordLength
      · by_cases h3 : isValidWord st.currentGuess = true
        · rw [submitGuess_success st h1 h2 h3]
          have hg : (getLetterStatus
              ({ checkGameStatus
                  { st with
                      guesses := st.guesses
                        ++ [(st.currentGuess, evaluateGuess st.currentGuess st.targetWord)]
                      usedLetters := st.currentGuess.foldl setAdd st.usedLetters }
                with currentGuess := [] }) c) =
              lookupLetter (st.guesses
                ++ [(st.currentGuess, evaluateGuess st.currentGuess st.targetWord)])
                c.toUpper := by
            show lookupLetter ((checkGameStatus
                { st with
                    guesses := st.guesses
                      ++ [(st.currentGuess, evaluateGuess st.currentGuess st.targetWord)]
                    usedLetters := st.currentGuess.foldl setAdd st.usedLetters }).guesses)
                c.toUpper = _
            rw [checkGameStatus_guesses]
          rw [hg, lookupLetter_append]
          cases hf : foundIn st.guesses c.toUpper with
          | true =>
            rw [if_pos rfl]
            exact Nat.le_refl _
          | false =>
            rw [if_neg (by simp)]
            rw [show getLetterStatus st c = lookupLetter st.guesses c.toUpper from rfl]
            rw [lookupLetter_not_found st.guesses c.toUpper hf]
            exact Nat.zero_le _
        · rw [submitGuess_fail st (Or.inr (Or.inr (by simpa using h3)))]
      · rw [submitGuess_fail st (Or.inr (Or.inl h2))]
    · rw [submitGuess_fail st (Or.inl h1)]

/-- C4 amended: across a session, the state `getLetterStatus` reports for
any letter never downgrades in the `correct > present > absent > unused`
order: its rank is monotone along any extension of the operation
sequence. -/
theorem getLetterStatus_never_downgrades (target : List Char) (ops extra : List Op) (c : Char) :
    (getLetterStatus (finalState target ops) c).rank
      ≤ (getLetterStatus (finalState target (ops ++ extra)) c).rank := by
  have hsplit : finalState target (ops ++ extra) = run (finalState target ops) extra := by
    unfold finalState run
    rw [List.foldl_append]
  rw [hsplit]
  clear hsplit
  generalize finalState target ops = st
  induction extra generalizing st with
  | nil => exact Nat.le_refl _
  | cons op rest ih =>
    calc (getLetterStatus st c).rank
        ≤ (getLetterStatus (step st op).2 c).rank := getLetterStatus_step_mono st op c
      _ ≤ (getLetterStatus (run (step st op).2 rest) c).rank := ih ((step st op).2)

/-- C4 counterexample: with secret `"ABCDE"`, after submitting `"XAXXX"`
the letter `A` is reported `present`; the second guess `"AXXXX"` newly
observes `A` as `correct`, yet `getLetterStatus` still reports `present` —
not the maximum of the previous report and the new observation, because
the scan returns the result recorded in the first guess containing the
letter, ignoring later upgrades. -/
theorem getLetterStatus_not_max_of_observations :
    getLetterStatus
        (finalState ['A', 'B', 'C', 'D', 'E']
          [.addL 'X', .addL 'A', .addL 'X', .addL 'X', .addL 'X', .submit])
        'A' = LetterState.present
      ∧ observedInGuess
          ((finalState ['A', 'B', 'C', 'D', 'E']
            [.addL 'X', .addL 'A', .addL 'X', .addL 'X', .addL 'X', .submit,
             .addL 'A', .addL 'X', .addL 'X', .addL 'X', .addL 'X', .submit]).guesses.getD 1
            ([], []))
          'A' = LetterState.correct
      ∧ getLetterStatus
          (finalState ['A', 'B', 'C', 'D', 'E']
            [.addL 'X', .addL 'A', .addL 'X', .addL 'X', .addL 'X', .submit,
             .addL 'A', .addL 'X', .addL 'X', .addL 'X', .addL 'X', .submit])
          'A'
        ≠ specStateMax LetterState.present LetterState.correct := by
  refine ⟨?_, ?_, ?_⟩ <;> decide

/-- Finalization updates the statistics exactly through `finalizeStats`
(achievement checking and the history prepend leave them alone). -/
theorem finalizeGame_statistics (st : MgrState) (game : MGame) (now : Nat) :
    (finalizeGame st game now).statistics = finalizeStats st.statistics game := rfl

/-- Finalization prepends exactly one history record for the game. -/
theorem finalizeGame_history (st : MgrState) (game : MGame) (now : Nat) :
    (finalizeGame st game now).gameHistory =
      { id := game.id
        targetWord := game.targetWord
        gameStatus := game.gameStatus
        guessCount := game.guesses.length
        duration := (game.endTime.getD 0 : Int) - (game.startTime : Int)
        completedAt := game.endTime } :: st.gameHistory := rfl

/-- `gamesPlayed` is incremented on every finalization, won or lost. -/
theorem finalizeStats_gamesPlayed (stats : Statistics) (game : MGame) :
    (finalizeStats stats game).gamesPlayed = stats.gamesPlayed + 1 := by
  unfold finalizeStats
  split
  · dsimp only
    split
    · rfl
    · rfl
  · rfl

/-- `gamesWon` is incremented exactly on won finalizations. -/
theorem finalizeStats_gamesWon (stats : Statistics) (game : MGame) :
    (finalizeStats stats game).gamesWon =
      if game.gameStatus = .won then stats.gamesWon + 1 else stats.gamesWon := by
  unfold finalizeStats
  by_cases hw : game.gameStatus = .won
  · rw [if_pos hw, if_pos hw]
    dsimp only
    split
    · rfl
    · rfl
  · rw [if_neg hw, if_neg hw]

/-- `currentStreak` is incremented on wins and reset on non-wins. -/
theorem finalizeStats_currentStreak (stats : Statistics) (game : MGame) :
    (finalizeStats stats game).currentStreak =
      if game.gameStatus = .won then stats.currentStreak + 1 else 0 := by
  unfold finalizeStats
  by_cases hw : game.gameStatus = .won
  · rw [if_pos hw, if_pos hw]
    dsimp only
    split
    · rfl
    · rfl
  · rw [if_neg hw, if_neg hw]

/-- `maxStreak` absorbs the updated streak on wins and is untouched on
non-wins. -/
theorem finalizeStats_maxStreak (stats : Statistics) (game : MGame) :
    (finalizeStats stats game).maxStreak =
      if game.gameStatus = .won then max stats.maxStreak (stats.currentStreak + 1)
      else stats.maxStreak := by
  unfold finalizeStats
  by_cases hw : game.gameStatus = .won
  · rw [if_pos hw, if_pos hw]
    dsimp only
    split
    · rfl
    · rfl
  · rw [if_neg hw, if_neg hw]

/-- The histogram slot `guessCount - 1` is bumped on won finalizations
with an in-range guess count. -/
theorem finalizeStats_dist_won (stats : Statistics) (game : MGame)
    (hw : game.gameStatus = .won)
    (h1 : 1 ≤ game.guesses.length) (h6 : game.guesses.length ≤ 6) :
    (finalizeStats stats game).guessDistribution =
      incAt stats.guessDistribution (game.guesses.length - 1) := by
  unfold finalizeStats
  rw [if_pos hw]
  dsimp only
  rw [if_pos ⟨h1, h6⟩]

/-- The histogram is untouched on non-won finalizations. -/
theorem finalizeStats_dist_not_won (stats : Statistics) (game : MGame)
    (hw : game.gameStatus ≠ .won) :
    (finalizeStats stats game).guessDistribution = stats.guessDistribution := by
  unfold finalizeStats
  rw [if_neg hw]

/-- Incrementing a slot in range raises exactly that entry by one. -/
theorem getD_incAt_self (l : List Nat) (i : Nat) (h : i < l.length) :
    (incAt l i).getD i 0 = l.getD i 0 + 1 := by
  induction l generalizing i with
  | nil => simp at h
  | cons x xs ih =>
    cases i with
    | zero => rfl
    | succ j =>
      have hj : j < xs.length := by simpa using h
      simpa [incAt, List.getD] using ih j hj

/-- Incrementing a slot leaves every other entry unchanged. -/
theorem getD_incAt_other (l : List Nat) (i j : Nat) (hij : j ≠ i) :
    (incAt l i).getD j 0 = l.getD j 0 := by
  induction l generalizing i j with
  | nil => simp [incAt]
  | cons x xs ih =>
    cases i with
    | zero =>
      cases j with
      | zero => exact absurd rfl hij
      | succ j2 => rfl
    | succ i2 =>
      cases j with
      | zero => rfl
      | succ j2 =>
        have : j2 ≠ i2 := fun hh => hij (by rw [hh])
        simpa [incAt, List.getD] using ih i2 j2 this

/-- C5 counterexample: finalizing the same won session twice, even though
its id `"game_1"` is already recorded in the history after the first
finalization, changes both the statistics (`gamesPlayed` grows again) and
the history (a second record is prepended): `finalizeGame` has no
idempotency guard. -/
theorem finalizeGame_double_finalization_changes_state :
    ((finalizeGame initialState gameWonOnce 100).gameHistory.any
        (fun r => r.id == "game_1")) = true
      ∧ (finalizeGame (finalizeGame initialState gameWonOnce 100) gameWonOnce 200).statistics.gamesPlayed
          ≠ (finalizeGame initialState gameWonOnce 100).statistics.gamesPlayed
      ∧ (finalizeGame (finalizeGame initialState gameWonOnce 100) gameWonOnce 200).gameHistory.length
          ≠ (finalizeGame initialState gameWonOnce 100).gameHistory.length := by
  refine ⟨?_, ?_, ?_⟩ <;> decide

/-- C5 amended: `finalizeGame` applies its effects unconditionally — it
has no guard on the session id: every call, including one whose session id
is already recorded in the history, increments `gamesPlayed` and prepends
a fresh history record carrying that id. -/
theorem finalizeGame_unconditional (st : MgrState) (game : MGame) (now : Nat) :
    (finalizeGame st game now).statistics.gamesPlayed = st.statistics.gamesPlayed + 1
      ∧ (finalizeGame st game now).gameHistory.length = st.gameHistory.length + 1
      ∧ ((finalizeGame st game now).gameHistory.head?.map (fun r => r.id)) = some game.id := by
  refine ⟨?_, ?_, ?_⟩
  · rw [finalizeGame_statistics]
    exact finalizeStats_gamesPlayed st.statistics game
  · rw [finalizeGame_history]
    rfl
  · rw [finalizeGame_history]
    rfl

/-- C6: finalizing a terminal session increments `gamesPlayed`; on a win
it increments `gamesWon` and `currentStreak`, absorbs the new streak into
`maxStreak`, and bumps the histogram slot `guessCount - 1` (leaving the
other slots unchanged); on a loss it zeroes `currentStreak` and leaves
`gamesWon` and the histogram untouched. -/
theorem finalizeGame_statistics_update (st : MgrState) (game : MGame) (now : Nat)
    (hdist : st.statistics.guessDistribution.length = 6) :
    (finalizeGame st game now).statistics.gamesPlayed = st.statistics.gamesPlayed + 1
      ∧ (game.gameStatus = .won →
          (finalizeGame st game now).statistics.gamesWon = st.statistics.gamesWon + 1
          ∧ (finalizeGame st game now).statistics.currentStreak
              = st.statistics.currentStreak + 1
          ∧ (finalizeGame st game now).statistics.maxStreak
              = max st.statistics.maxStreak (st.statistics.currentStreak + 1)
          ∧ (1 ≤ game.guesses.length → game.guesses.length ≤ 6 →
              (finalizeGame st game now).statistics.guessDistribution.getD
                  (game.guesses.length - 1) 0
                = st.statistics.guessDistribution.getD (game.guesses.length - 1) 0 + 1
              ∧ ∀ j, j ≠ game.guesses.length - 1 →
                  (finalizeGame st game now).statistics.guessDistribution.getD j 0
                    = st.statistics.guessDistribution.getD j 0))
      ∧ (game.gameStatus = .lost →
          (finalizeGame st game now).statistics.currentStreak = 0
          ∧ (finalizeGame st game now).statistics.gamesWon = st.statistics.gamesWon
          ∧ (finalizeGame st game now).statistics.guessDistribution
              = st.statistics.guessDistribution) := by
  rw [finalizeGame_statistics]
  refine ⟨finalizeStats_gamesPlayed st.statistics game, ?_, ?_⟩
  · intro hw
    refine ⟨?_, ?_, ?_, ?_⟩
    · rw [finalizeStats_gamesWon, if_pos hw]
    · rw [finalizeStats_currentStreak, if_pos hw]
    · rw [finalizeStats_maxStreak, if_pos hw]
    · intro h1 h6
      rw [finalizeStats_dist_won st.statistics game hw h1 h6]
      constructor
      · exact getD_incAt_self _ _ (by omega)
      · intro j hj
        exact getD_incAt_other _ _ _ hj
  · intro hl
    have hw : game.gameStatus ≠ .won := by rw [hl]; intro hh; cases hh
    refine ⟨?_, ?_, ?_⟩
    · rw [finalizeStats_currentStreak, if_neg hw]
    · rw [finalizeStats_gamesWon, if_neg hw]
    · exact finalizeStats_dist_not_won st.statistics game hw

/-- Witness for `finalizeGame_statistics_update`: the fresh state and the
concrete one-guess won session. -/
theorem finalizeGame_statistics_update_witness :
    initialState.statistics.guessDistribution.length = 6
      ∧ ((finalizeGame initialState gameWonOnce 100).statistics.gamesPlayed
            = initialState.statistics.gamesPlayed + 1
        ∧ (gameWonOnce.gameStatus = .won →
            (finalizeGame initialState gameWonOnce 100).statistics.gamesWon
                = initialState.statistics.gamesWon + 1
            ∧ (finalizeGame initialState gameWonOnce 100).statistics.currentStreak
                = initialState.statistics.currentStreak + 1
            ∧ (finalizeGame initialState gameWonOnce 100).statistics.maxStreak
                = max initialState.statistics.maxStreak
                    (initialState.statistics.currentStreak + 1)
            ∧ (1 ≤ gameWonOnce.guesses.length → gameWonOnce.guesses.length ≤ 6 →
                (finalizeGame initialState gameWonOnce 100).statistics.guessDistribution.getD
                    (gameWonOnce.guesses.length - 1) 0
                  = initialState.statistics.guessDistribution.getD
                      (gameWonOnce.guesses.length - 1) 0 + 1
                ∧ ∀ j, j ≠ gameWonOnce.guesses.length - 1 →
                    (finalizeGame initialState gameWonOnce 100).statistics.guessDistribution.getD j 0
                      = initialState.statistics.guessDistribution.getD j 0))
        ∧ (gameWonOnce.gameStatus = .lost →
            (finalizeGame initialState gameWonOnce 100).statistics.currentStreak = 0
            ∧ (finalizeGame initialState gameWonOnce 100).statistics.gamesWon
                = initialState.statistics.gamesWon
            ∧ (finalizeGame initialState gameWonOnce 100).statistics.guessDistribution
                = initialState.statistics.guessDistribution)) :=
  ⟨by decide, finalizeGame_statistics_update initialState gameWonOnce 100 (by decide)⟩

/-- The achievement list produced by one finalization: the old list plus
the guarded singletons of `checkAchievements`, whose guards read the
updated statistics and the pre-existing achievement list. -/
theorem finalizeGame_achievements (st : MgrState) (game : MGame) (now : Nat) :
    (finalizeGame st game now).achievements =
      st.achievements
        ++ (if (finalizeStats st.statistics game).gamesWon == 1
              && !(st.achievements.any (fun a => a.id == "first_win")) then
            [firstWinAchievement now]
          else [])
        ++ (if 5 ≤ (finalizeStats st.statistics game).currentStreak
              && !(st.achievements.any (fun a => a.id == "streak_master")) then
            [streakMasterAchievement now]
          else [])
        ++ (if game.gameStatus == .won && game.guesses.length == 1
              && !(st.achievements.any (fun a => a.id == "perfect_game")) then
            [perfectGameAchievement now]
          else [])
        ++ (if 10 ≤ (finalizeStats st.statistics game).gamesPlayed
              && !(st.achievements.any (fun a => a.id == "word_master")) then
            [wordMasterAchievement now]
          else []) := rfl

/-- A guarded singleton whose achievement id is not `first_win`
contributes nothing to the `first_win` count. -/
theorem countP_firstWin_ite_zero (b : Bool) (a : Achievement)
    (hid : (a.id == "first_win") = false) :
    List.countP (fun x => x.id == "first_win") (if b then [a] else []) = 0 := by
  cases b <;> simp [hid]

/-- One finalization preserves the `first_win` bookkeeping: the number of
`first_win` achievements equals `0` when no game has been won yet and `1`
afterwards. -/
theorem firstWin_step (st : MgrState) (game : MGame) (now : Nat)
    (h : st.achievements.countP (fun a => a.id == "first_win")
          = if st.statistics.gamesWon = 0 then 0 else 1) :
    (finalizeGame st game now).achievements.countP (fun a => a.id == "first_win")
      = if (finalizeGame st game now).statistics.gamesWon = 0 then 0 else 1 := by
  rw [finalizeGame_achievements, finalizeGame_statistics]
  rw [List.countP_append, List.countP_append, List.countP_append, List.countP_append]
  rw [countP_firstWin_ite_zero _ (streakMasterAchievement now) (by simp [streakMasterAchievement]),
      countP_firstWin_ite_zero _ (perfectGameAchievement now) (by simp [perfectGameAchievement]),
      countP_firstWin_ite_zero _ (wordMasterAchievement now) (by simp [wordMasterAchievement])]
  rw [finalizeStats_gamesWon]
  by_cases hz : st.statistics.gamesWon = 0
  · rw [if_pos hz] at h
    have hany : st.achievements.any (fun a => a.id == "first_win") = false := by
      cases hb : st.achievements.any (fun a => a.id == "first_win") with
      | false => rfl
      | true =>
        exfalso
        obtain ⟨a, ha, hpa⟩ := List.any_eq_true.mp hb
        have hpos : 0 < st.achievements.countP (fun x => x.id == "first_win") := by
          rw [List.countP_pos]
          exact ⟨a, ha, hpa⟩
        omega
    by_cases hw : game.gameStatus = .won
    · rw [if_pos hw]
      rw [hz, hany]
      simp [h, firstWinAchievement]
    · rw [if_neg hw]
      rw [hz, hany]
      simp [h, hz]
  · rw [if_neg hz] at h
    have hany : st.achievements.any (fun a => a.id == "first_win") = true := by
      cases hb : st.achievements.any (fun a => a.id == "first_win") with
      | true => rfl
      | false =>
        exfalso
        have hcz : st.achievements.countP (fun x => x.id == "first_win") = 0 :=
          List.countP_eq_zero.mpr (by
            intro a ha hpa
            have hat : st.achievements.any (fun x => x.id == "first_win") = true :=
              List.any_eq_true.mpr ⟨a, ha, hpa⟩
            rw [hb] at hat
            cases hat)
        omega
    rw [hany]
    by_cases hw : game.gameStatus = .won
    · rw [if_pos hw]
      simp [h, hz]
    · rw [if_neg hw]
      simp [h, hz]

/-- C7: starting from the fresh state, after any sequence of
finalizations the `first_win` achievement is present exactly once when at
least one game has been won and not at all otherwise — so it is unlocked
exactly at the finalization taking `gamesWon` from 0 to 1, and no later
finalization ever adds a second copy. -/
theorem first_win_unlocked_once (gs : List (MGame × Nat)) :
    (runFinalizes initialState gs).achievements.countP (fun a => a.id == "first_win")
      = if (runFinalizes initialState gs).statistics.gamesWon = 0 then 0 else 1 := by
  suffices hgen : ∀ st : MgrState,
      st.achievements.countP (fun a => a.id == "first_win")
          = (if st.statistics.gamesWon = 0 then 0 else 1) →
      (runFinalizes st gs).achievements.countP (fun a => a.id == "first_win")
        = if (runFinalizes st gs).statistics.gamesWon = 0 then 0 else 1 by
    exact hgen initialState (by decide)
  induction gs with
  | nil => intro st h; exact h
  | cons p rest ih =>
    intro st h
    exact ih _ (firstWin_step st p.1 p.2 h)

/-- Incrementing an in-range slot raises the histogram sum by one. -/
theorem sum_incAt (l : List Nat) (i : Nat) (h : i < l.length) :
    (incAt l i).sum = l.sum + 1 := by
  induction l generalizing i with
  | nil => simp at h
  | cons x xs ih =>
    cases i with
    | zero =>
      simp [incAt, List.getD]
      omega
    | succ j =>
      have hj : j < xs.length := by simpa using h
      have hstep : incAt (x :: xs) (j + 1) = x :: incAt xs j := by
        simp [incAt, List.getD_cons_succ]
      rw [hstep, List.sum_cons, List.sum_cons, ih j hj]
      omega

/-- `incAt` never changes the histogram length. -/
theorem length_incAt (l : List Nat) (i : Nat) : (incAt l i).length = l.length := by
  simp [incAt]

/-- One finalization of a session whose win (if any) used 1 to 6 guesses
preserves the statistics invariant. -/
theorem finalizeStats_invariant (stats : Statistics) (game : MGame)
    (h : StatsInvariant stats)
    (hg : game.gameStatus = .won → 1 ≤ game.guesses.length ∧ game.guesses.length ≤ 6) :
    StatsInvariant (finalizeStats stats game) := by
  obtain ⟨h1, h2, h3, h4⟩ := h
  by_cases hw : game.gameStatus = .won
  · obtain ⟨hgc1, hgc6⟩ := hg hw
    have hdist := finalizeStats_dist_won stats game hw hgc1 hgc6
    refine ⟨?_, ?_, ?_, ?_⟩
    · rw [finalizeStats_currentStreak, if_pos hw, finalizeStats_maxStreak, if_pos hw]
      exact le_max_right _ _
    · rw [finalizeStats_gamesWon, if_pos hw, finalizeStats_gamesPlayed]
      omega
    · rw [hdist, finalizeStats_gamesWon, if_pos hw, sum_incAt _ _ (by omega)]
      omega
    · rw [hdist, length_incAt]
      exact h4
  · have hdist := finalizeStats_dist_not_won stats game hw
    refine ⟨?_, ?_, ?_, ?_⟩
    · rw [finalizeStats_currentStreak, if_neg hw, finalizeStats_maxStreak, if_neg hw]
      exact Nat.zero_le _
    · rw [finalizeStats_gamesWon, if_neg hw, finalizeStats_gamesPlayed]
      omega
    · rw [hdist, finalizeStats_gamesWon, if_neg hw]
      exact h3
    · rw [hdist]
      exact h4

/-- C10: starting from the all-zero statistics, after any sequence of
finalizations of sessions whose wins used between 1 and 6 guesses, the
statistics satisfy `currentStreak ≤ maxStreak`, `gamesWon ≤ gamesPlayed`,
and the six-slot `guessDistribution` sums to `gamesWon`. -/
theorem statistics_invariant_holds (gs : List (MGame × Nat))
    (hg : ∀ p ∈ gs, p.1.gameStatus = .won →
        1 ≤ p.1.guesses.length ∧ p.1.guesses.length ≤ 6) :
    StatsInvariant (runFinalizes initialState gs).statistics := by
  suffices hgen : ∀ st : MgrState, StatsInvariant st.statistics →
      StatsInvariant (runFinalizes st gs).statistics by
    exact hgen initialState (by refine ⟨?_, ?_, ?_, ?_⟩ <;> decide)
  induction gs with
  | nil => intro st h; exact h
  | cons p rest ih =>
    intro st h
    have hstep : StatsInvariant (finalizeGame st p.1 p.2).statistics := by
      rw [finalizeGame_statistics]
      exact finalizeStats_invariant st.statistics p.1 h
        (hg p (List.mem_cons_self p rest))
    exact ih (fun q hq hwq => hg q (List.mem_cons_of_mem p hq) hwq) _ hstep

/-- Witness for `statistics_invariant_holds`: one concrete won session. -/
theorem statistics_invariant_holds_witness :
    (∀ p ∈ [(gameWonOnce, 100)], p.1.gameStatus = .won →
        1 ≤ p.1.guesses.length ∧ p.1.guesses.length ≤ 6)
      ∧ StatsInvariant (runFinalizes initialState [(gameWonOnce, 100)]).statistics :=
  ⟨by decide, statistics_invariant_holds [(gameWonOnce, 100)] (by decide)⟩

/-- `toFixed(1)` at the mean `5/3` yields `1.7`. -/
theorem toFixed1_five_thirds : toFixed1 ((5 : ℚ) / 3) = 17 / 10 := by
  unfold toFixed1 mathRound
  have harg : ((5 : ℚ) / 3 * 10 + 1 / 2) = 103 / 6 := by norm_num
  rw [harg]
  have hfl : ⌊(103 : ℚ) / 6⌋ = 17 := by
    rw [Int.floor_eq_iff]
    constructor <;> norm_num
  rw [hfl]
  norm_num

/-- C8 counterexample: with a history of three won games using 1, 1 and 3
guesses, `getStatistics` reports `averageGuesses = 1.7` — the mean `5/3`
rounded by `toFixed(1)` — which is not equal to the mean guess count over
the won games. -/
theorem getStatistics_average_not_mean :
    (getStatistics { initialState with gameHistory := historyThreeWins }).averageGuesses
      ≠ ((((historyThreeWins.filter (fun g => g.gameStatus == .won)).map
            (fun g => g.guessCount)).sum : Nat) : ℚ)
          / (((historyThreeWins.filter (fun g => g.gameStatus == .won)).length : Nat) : ℚ) := by
  have hfil : historyThreeWins.filter (fun g => g.gameStatus == .won) = historyThreeWins := by
    decide
  have hlhs : (getStatistics
      { initialState with gameHistory := historyThreeWins }).averageGuesses = 17 / 10 := by
    show calculateAverageGuesses historyThreeWins = 17 / 10
    unfold calculateAverageGuesses
    rw [hfil]
    rw [if_neg (by decide)]
    have hsum : (((historyThreeWins.map (fun g => g.guessCount)).sum : Nat) : ℚ) = 5 := by
      norm_num [historyThreeWins]
    have hlen : ((historyThreeWins.length : Nat) : ℚ) = 3 := by
      norm_num [historyThreeWins]
    rw [hsum, hlen]
    exact toFixed1_five_thirds
  rw [hlhs, hfil]
  have hsum : (((historyThreeWins.map (fun g => g.guessCount)).sum : Nat) : ℚ) = 5 := by
    norm_num [historyThreeWins]
  have hlen : ((historyThreeWins.length : Nat) : ℚ) = 3 := by
    norm_num [historyThreeWins]
  rw [hsum, hlen]
  norm_num

/-- C8 amended: `getStatistics` reports `winPercentage` as
`round(gamesWon / gamesPlayed * 100)` (0 when no games were played) and
`averageGuesses` as the mean guess count over the won games of the
history rounded to one decimal digit by `toFixed(1)` (0 when there are no
won games). -/
theorem getStatistics_derived_fields (st : MgrState) :
    (st.statistics.gamesPlayed = 0 → (getStatistics st).winPercentage = 0)
      ∧ (0 < st.statistics.gamesPlayed →
          (getStatistics st).winPercentage
            = ⌊(st.statistics.gamesWon : ℚ) * 100 / (st.statistics.gamesPlayed : ℚ) + 1 / 2⌋)
      ∧ (st.gameHistory.filter (fun g => g.gameStatus == .won) = [] →
          (getStatistics st).averageGuesses = 0)
      ∧ (st.gameHistory.filter (fun g => g.gameStatus == .won) ≠ [] →
          (getStatistics st).averageGuesses
            = (⌊((((st.gameHistory.filter (fun g => g.gameStatus == .won)).map
                    (fun g => g.guessCount)).sum : Nat) : ℚ) * 10
                  / (((st.gameHistory.filter
                    (fun g => g.gameStatus == .won)).length : Nat) : ℚ) + 1 / 2⌋ : ℚ)
                / 10) := by
  refine ⟨?_, ?_, ?_, ?_⟩
  · intro h0
    show (if 0 < st.statistics.gamesPlayed then _ else 0) = 0
    rw [if_neg (by omega)]
  · intro hpos
    show (if 0 < st.statistics.gamesPlayed then
        mathRound ((st.statistics.gamesWon : ℚ) / (st.statistics.gamesPlayed : ℚ) * 100)
      else 0) = _
    rw [if_pos hpos]
    unfold mathRound
    congr 1
    ring
  · intro hemp
    show calculateAverageGuesses st.gameHistory = 0
    unfold calculateAverageGuesses
    rw [hemp]
    rfl
  · intro hne
    show calculateAverageGuesses st.gameHistory = _
    unfold calculateAverageGuesses
    rw [if_neg (by
      intro hlen
      exact hne (List.length_eq_zero.mp hlen))]
    unfold toFixed1 mathRound
    congr 2
    ring

/-- Decoding a mapped array succeeds elementwise. -/
theorem decList_map {α : Type} (d : Json → Option α) (e : α → Json)
    (h : ∀ x, d (e x) = some x) :
    ∀ xs : List α, decList d (xs.map e) = some xs := by
  intro xs
  induction xs with
  | nil => rfl
  | cons x rest ih =>
    rw [List.map_cons]
    show decList d (e x :: rest.map e) = some (x :: rest)
    unfold decList
    rw [h x, ih]

/-- Status strings decode back. -/
theorem decStatus_enc (s : Status) : decStatus (encStatus s) = some s := by
  cases s <;> rfl

/-- Letter-state strings decode back. -/
theorem decLetterState_enc (s : LetterState) : decLetterState (encLetterState s) = some s := by
  cases s <;> rfl

/-- Words decode back. -/
theorem decWord_enc (w : List Char) : decWord (encWord w) = some w := rfl

/-- Set elements (single-character strings) decode back. -/
theorem decChar_enc (c : Char) : decChar (.str (String.singleton c)) = some c := rfl

/-- Nullable timestamps decode back. -/
theorem decOptNat_enc (o : Option Nat) : decOptNat (encOptNat o) = some o := by
  cases o <;> rfl

/-- Guess records decode back. -/
theorem decGuess_enc (g : MGuess) : decGuess (encGuess g) = some g := by
  have h1 := decList_map decLetterState encLetterState decLetterState_enc g.result
  simp only [encGuess, decGuess]
  rw [decWord_enc, h1]
  rfl

/-- Revived `Set`s decode back. -/
theorem decSet_enc (s : List Char) : decSet (encSet s) = some s := by
  show decList decChar (s.map (fun c => .str (String.singleton c))) = some s
  exact decList_map decChar _ decChar_enc s

/-- The statistics block decodes back. -/
theorem decStatistics_enc (s : Statistics) : decStatistics (encStatistics s) = some s := by
  have h1 := decList_map decNat (fun (n : Nat) => Json.num (n : Int)) (fun n => rfl) s.guessDistribution
  simp only [encStatistics, decStatistics]
  rw [h1]
  rfl

/-- The settings block decodes back. -/
theorem decSettings_enc (s : Settings) : decSettings (encSettings s) = some s := rfl

/-- Achievements decode back. -/
theorem decAchievement_enc (a : Achievement) : decAchievement (encAchievement a) = some a := rfl

/-- History records decode back. -/
theorem decHistoryRec_enc (r : HistoryRec) : decHistoryRec (encHistoryRec r) = some r := by
  simp only [encHistoryRec, decHistoryRec]
  rw [decWord_enc, decStatus_enc, decOptNat_enc]
  rfl

set_option maxHeartbeats 1000000 in
/-- The current game object decodes back. -/
theorem decMGame_enc (g : MGame) : decMGame (encMGame g) = some g := by
  have h1 := decList_map decGuess encGuess decGuess_enc g.guesses
  have h2 := decList_map decWord encWord decWord_enc g.wordList
  show ((decWord (encWord g.targetWord)).bind fun tw =>
      (decWord (encWord g.currentGuess)).bind fun cg =>
      (decList decGuess (g.guesses.map encGuess)).bind fun gs =>
      (decStatus (encStatus g.gameStatus)).bind fun s =>
      (decOptNat (encOptNat g.endTime)).bind fun et =>
      (decSet (encSet g.usedLetters)).bind fun ul =>
      (decList decWord (g.wordList.map encWord)).bind fun wlst =>
      some { id := g.id, targetWord := tw, currentGuess := cg, guesses := gs
             gameStatus := s, mgMaxGuesses := ((g.mgMaxGuesses : Int)).toNat
             mgWordLength := ((g.mgWordLength : Int)).toNat
             startTime := ((g.startTime : Int)).toNat, endTime := et
             usedLetters := ul, wordList := wlst }) = some g
  rw [decWord_enc, decWord_enc, h1, decStatus_enc, decOptNat_enc, decSet_enc, h2]
  rfl

/-- C9: save/load round trip.  Decoding the saved JSON tree of any
manager state restores it exactly — in particular the current game's
`usedLetters` set and the unlocked achievement collection come back equal
to what was saved. -/
theorem loadState_saveState_roundtrip (st : MgrState) :
    decMgrState (encMgrState st) = some st := by
  have hgh := decList_map decHistoryRec encHistoryRec decHistoryRec_enc st.gameHistory
  have hac := decList_map decAchievement encAchievement decAchievement_enc st.achievements
  cases hcg : st.currentGame with
  | none =>
    simp [encMgrState, decMgrState, hcg, hgh, hac, decStatistics_enc, decSettings_enc,
      decOptNat_enc]
    rw [← hcg]
  | some g =>
    simp only [encMgrState, decMgrState, hcg]
    show ((Option.map some (decMGame (encMGame g))).bind fun y =>
        (decList decHistoryRec (st.gameHistory.map encHistoryRec)).bind fun gh =>
        (decStatistics (encStatistics st.statistics)).bind fun stats =>
        (decSettings (encSettings st.settings)).bind fun se =>
        (decList decAchievement (st.achievements.map encAchievement)).bind fun ac =>
        (decOptNat (encOptNat st.lastPlayed)).bind fun lp =>
        some { currentGame := y, gameHistory := gh, statistics := stats
               settings := se, achievements := ac, lastPlayed := lp }) = some st
    rw [decMGame_enc, hgh, decStatistics_enc, decSettings_enc, hac, decOptNat_enc]
    show some { currentGame := some g, gameHistory := st.gameHistory
                statistics := st.statistics, settings := st.settings
                achievements := st.achievements, lastPlayed := st.lastPlayed } = some st
    rw [← hcg]

end TinyWordle
